import Mathlib

/-!
# go-web-proxy: whitelist admission and forwarding

A shallow embedding of `main.go`.

Conventions of the embedding

* A Go `string` is modelled by the list of its Unicode code points (`List Char`); the
  strings handled here are host names, URIs and patterns, taken to be valid UTF-8.  The
  byte `':'` never occurs inside a multi-byte UTF-8 sequence, so cutting a string at the
  byte offset of a colon and cutting the code point list at that colon agree.
* The process-wide variable `Config` is passed explicitly.
* `regexp.MatchString` belongs to the Go standard library.  `checkUrl` and the handlers take
  it as a parameter `matchString`; `regexp.MatchString` below is a model of the library
  function on a fragment of the pattern language, used where a claim depends on what a
  pattern means.
-/

namespace GoWebProxy

/-! ## `strings` -/

/-- Scan used by `strings.LastIndex`: `i` is the offset of the scanned suffix and `acc`
the last offset found so far (`-1` when none). -/
def strings.lastIndexFrom (substr : List Char) : List Char → Nat → Int → Int
  | [], i, acc => if substr.isPrefixOf [] then (i : Int) else acc
  | c :: t, i, acc =>
      strings.lastIndexFrom substr t (i + 1) (if substr.isPrefixOf (c :: t) then (i : Int) else acc)

/-- Go `strings.LastIndex(s, substr)`: offset of the last occurrence of `substr` in `s`,
or `-1` when there is none. -/
def strings.LastIndex (s substr : List Char) : Int :=
  strings.lastIndexFrom substr s 0 (-1)

/-- Left-to-right replacement of the non-overlapping occurrences of a non-empty `old`;
`skip` counts the characters of the occurrence just replaced that are still to be dropped. -/
def strings.replaceFrom (old new : List Char) : Nat → List Char → List Char
  | _, [] => []
  | skip + 1, _ :: t => strings.replaceFrom old new skip t
  | 0, c :: t =>
      if old.isPrefixOf (c :: t) then new ++ strings.replaceFrom old new (old.length - 1) t
      else c :: strings.replaceFrom old new 0 t

/-- Go `strings.ReplaceAll(s, old, new)`.  With an empty `old` Go inserts `new` before every
code point and at the end. -/
def strings.ReplaceAll (s old new : List Char) : List Char :=
  match old with
  | [] => new ++ (s.map (fun c => c :: new)).flatten
  | _ :: _ => strings.replaceFrom old new 0 s

/-- Go slice expression `s[:n]` on a string. -/
def sliceTo (s : List Char) (n : Int) : List Char := s.take n.toNat

/-! ## Configuration and startup -/

/-- The `AppConfig` struct. -/
structure AppConfig where
  Proto : List Char
  Port : Int
  PemPath : List Char
  KeyPath : List Char
  Whitelist : List (List Char)
deriving DecidableEq, Repr

/-- One iteration of the normalisation loop of `main` (lines 118-119).  The first assignment
to `Config.Whitelist[k]` is overwritten by the second, which is computed from the loop
variable `v` again. -/
def normalizePattern (v : List Char) : List Char :=
  let _first := strings.ReplaceAll v "/".toList "\\/".toList
  "^".toList ++ strings.ReplaceAll v "*".toList ".*".toList ++ "$".toList

/-- The loop `for k, v := range Config.Whitelist` of `main`. -/
def normalizeWhitelist (wl : List (List Char)) : List (List Char) :=
  wl.map normalizePattern

/-- Result type of `regexp.MatchString`: `(matched bool, err error)`. -/
abbrev MatchResult := Bool × Option (List Char)

/-- The type of `regexp.MatchString(pattern, s)`. -/
abbrev Matcher := List Char → List Char → MatchResult

/-- The rule loop of `checkUrl` (lines 23-28): stops at the first rule whose match reports
`ok`; the error value is discarded. -/
def checkRules (matchString : Matcher) (url : List Char) : List (List Char) → Bool
  | [] => false
  | v :: rest => if (matchString v url).1 then true else checkRules matchString url rest

/-- The part of `checkUrl` before the loop (lines 19-22): cut at the last colon. -/
def stripPort (url : List Char) : List Char :=
  let port := strings.LastIndex url ":".toList
  if port ≠ -1 then sliceTo url port else url

/-- Go `checkUrl`. -/
def checkUrl (matchString : Matcher) (Config : AppConfig) (url : List Char) : Bool :=
  checkRules matchString (stripPort url) Config.Whitelist

/-! ## A model of `regexp.MatchString`

The fragment of the Go pattern language (package `regexp`, Perl flags) modelled here:
literal characters, `.`, `^`, `$`, the repetition operators `*`, `+`, `?` with their
non-greedy forms, alternation, groups `( )` and a backslash before ASCII punctuation.
A pattern that uses anything else (a bracket class, a brace, `(?`, a backslash before a
letter or digit) is reported as `unsupported`; no statement below is about such a pattern.
Only whether a match exists is modelled, so greedy and non-greedy repetition coincide and
groups do not capture.  The resource limits of the library (size of the compiled program,
nesting depth) are not modelled. -/

/-- Parsed regular expression (the operators of the fragment). -/
inductive Regex where
  | emptyMatch
  | literal (c : Char)
  | anyCharNotNL
  | beginText
  | endText
  | concat (a b : Regex)
  | alternate (a b : Regex)
  | star (r : Regex)
  | plus (r : Regex)
  | quest (r : Regex)
deriving DecidableEq, Repr

/-- Error codes of the pattern parser; `unsupported` marks a pattern outside the fragment. -/
inductive ErrorCode where
  | missingParen
  | unexpectedParen
  | missingRepeatArgument
  | invalidRepeatOp
  | trailingBackslash
  | invalidEscape
  | unsupported
deriving DecidableEq, Repr

/-- Text of an error code, as in Go (`unsupported` is not a Go code). -/
def ErrorCode.String : ErrorCode → List Char
  | .missingParen => "missing closing )".toList
  | .unexpectedParen => "unexpected )".toList
  | .missingRepeatArgument => "missing argument to repetition operator".toList
  | .invalidRepeatOp => "invalid nested repetition operator".toList
  | .trailingBackslash => "trailing backslash at end of expression".toList
  | .invalidEscape => "invalid escape sequence".toList
  | .unsupported => "outside the modelled fragment".toList

/-- Parser state for one open group: the finished branches of its alternation and the
operands of the branch being read, both most recent first. -/
structure Frame where
  alts : List Regex
  cur : List Regex
deriving DecidableEq, Repr

/-- Concatenation of operands given in reading order. -/
def concatOf : List Regex → Regex
  | [] => .emptyMatch
  | [r] => r
  | r :: r2 :: rs => .concat r (concatOf (r2 :: rs))

/-- Alternation of branches given in reading order. -/
def alternateOf : List Regex → Regex
  | [] => .emptyMatch
  | [r] => r
  | r :: r2 :: rs => .alternate r (alternateOf (r2 :: rs))

/-- The branch being read, as one expression. -/
def Frame.branch (f : Frame) : Regex := concatOf f.cur.reverse

/-- The expression of a group when it is closed. -/
def Frame.close (f : Frame) : Regex := alternateOf (f.branch :: f.alts).reverse

/-- Push an operand on the branch being read. -/
def Frame.push (f : Frame) (r : Regex) : Frame := { f with cur := r :: f.cur }

/-- Go `isalnum`: ASCII letter or digit. -/
def isalnum (c : Char) : Bool :=
  ('0' ≤ c ∧ c ≤ '9') ∨ ('A' ≤ c ∧ c ≤ 'Z') ∨ ('a' ≤ c ∧ c ≤ 'z')

/-- Apply a repetition operator character to an operand. -/
def repeatOp (op : Char) (r : Regex) : Regex :=
  if op = '*' then .star r else if op = '+' then .plus r else .quest r

/-- The parser loop: `f` is the innermost open group, `outer` the enclosing ones,
`lastRepeat` tells whether the previous token was a repetition operator, and `skip` that the
next character was already consumed by the previous token (the `?` of a non-greedy
operator, the character after a backslash). -/
def parseLoop : List Char → Frame → List Frame → Bool → Bool → Except ErrorCode Regex
  | [], f, outer, _, _ =>
      match outer with
      | [] => .ok f.close
      | _ :: _ => .error .missingParen
  | c :: t, f, outer, lastRepeat, skip =>
      if skip then parseLoop t f outer lastRepeat false
      else if c = '(' then
        if t.head? = some '?' then .error .unsupported
        else parseLoop t ⟨[], []⟩ (f :: outer) false false
      else if c = '|' then parseLoop t ⟨f.branch :: f.alts, []⟩ outer false false
      else if c = ')' then
        match outer with
        | [] => .error .unexpectedParen
        | g :: outer2 => parseLoop t (g.push f.close) outer2 false false
      else if c = '^' then parseLoop t (f.push .beginText) outer false false
      else if c = '$' then parseLoop t (f.push .endText) outer false false
      else if c = '.' then parseLoop t (f.push .anyCharNotNL) outer false false
      else if c = '[' ∨ c = '{' then .error .unsupported
      else if c = '*' ∨ c = '+' ∨ c = '?' then
        if lastRepeat then .error .invalidRepeatOp
        else
          match f.cur with
          | [] => .error .missingRepeatArgument
          | r :: rs => parseLoop t ⟨f.alts, repeatOp c r :: rs⟩ outer true (t.head? = some '?')
      else if c = '\\' then
        match t.head? with
        | none => .error .trailingBackslash
        | some d =>
            if d.val < 128 ∧ isalnum d = false then parseLoop t (f.push (.literal d)) outer false true
            else if d.val < 128 then .error .unsupported
            else .error .invalidEscape
      else parseLoop t (f.push (.literal c)) outer false false

/-- Parse a pattern. -/
def regexp.parse (pattern : List Char) : Except ErrorCode Regex :=
  parseLoop pattern ⟨[], []⟩ [] false false

/-- Closure of a repetition: the suffixes reachable from `s` by zero or more rounds of
`step`, each round consuming at least one character (a round that consumes nothing reaches
nothing new). -/
def starLoop (step : List Char → List (List Char)) : Nat → List Char → List (List Char)
  | 0, s => [s]
  | n + 1, s => s :: ((step s).filter (fun t => decide (t.length < s.length))).flatMap (starLoop step n)

/-- All ways to match `re` at the start of the suffix `s` of `text`: the list of the
suffixes that remain after a match.  Every position is a suffix of `text`, so a position is
the beginning of the text exactly when it is as long as `text`. -/
def Regex.after (text : List Char) : Regex → List Char → List (List Char)
  | .emptyMatch, s => [s]
  | .literal c, s =>
      match s with
      | [] => []
      | d :: t => if d = c then [t] else []
  | .anyCharNotNL, s =>
      match s with
      | [] => []
      | d :: t => if d = '\n' then [] else [t]
  | .beginText, s => if s.length = text.length then [s] else []
  | .endText, s => if s.length = 0 then [s] else []
  | .concat a b, s => (a.after text s).flatMap (b.after text)
  | .alternate a b, s => a.after text s ++ b.after text s
  | .star r, s => starLoop (r.after text) s.length s
  | .plus r, s => (r.after text s).flatMap (fun t => starLoop (r.after text) t.length t)
  | .quest r, s => s :: r.after text s

/-- Unanchored search: does `re` match starting at some position of `s`? -/
def Regex.matchString (re : Regex) (s : List Char) : Bool :=
  s.tails.any (fun t => !(re.after s t).isEmpty)

/-- Model of Go `regexp.MatchString(pattern, s)`: a pattern that does not parse yields
`(false, err)`.  Go appends the offending part of the pattern to the error text; the model
leaves it out. -/
def regexp.MatchString : Matcher := fun pattern s =>
  match regexp.parse pattern with
  | .error e => (false, some ("error parsing regexp: ".toList ++ e.String))
  | .ok re => (re.matchString s, none)

/-! ## `net/http` headers -/

/-- Go `validHeaderFieldByte`: the token characters of RFC 7230 (letters, digits and
``!#$%&'*+-.^_`|~``). -/
def validHeaderFieldByte (c : Char) : Bool :=
  isalnum c || "!#$%&*+-.^_|~".toList.contains c || c = Char.ofNat 39 || c = Char.ofNat 96

/-- The rewriting pass of `canonicalMIMEHeaderKey`: upper case at the start and after each
dash, lower case elsewhere. -/
def canonicalFrom : Bool → List Char → List Char
  | _, [] => []
  | upper, c :: t =>
      let c2 :=
        if upper ∧ 'a' ≤ c ∧ c ≤ 'z' then Char.ofNat (c.toNat - 32)
        else if ¬ upper ∧ 'A' ≤ c ∧ c ≤ 'Z' then Char.ofNat (c.toNat + 32)
        else c
      c2 :: canonicalFrom (c2 = '-') t

/-- Go `textproto.CanonicalMIMEHeaderKey` (also `http.CanonicalHeaderKey`): a key holding a
character that is not a token character is returned unchanged. -/
def CanonicalMIMEHeaderKey (s : List Char) : List Char :=
  if s.all validHeaderFieldByte then canonicalFrom true s else s

/-- Go `http.Header`, a `map[string][]string`, as an association list.  The order of the
entries of a source map stands for the order in which `range` visits it. -/
structure Header where
  entries : List (List Char × List (List Char))
deriving DecidableEq, Repr

/-- Assignment `m[k] = vs` on the entries of a map. -/
def storeEntry (k : List Char) (vs : List (List Char)) :
    List (List Char × List (List Char)) → List (List Char × List (List Char))
  | [] => [(k, vs)]
  | e :: rest => if e.1 = k then (k, vs) :: rest else e :: storeEntry k vs rest

/-- Map index `h[k]`: the nil slice when `k` is absent. -/
def Header.index (h : Header) (k : List Char) : List (List Char) :=
  match h.entries.find? (fun e => e.1 = k) with
  | some e => e.2
  | none => []

/-- Go `Header.Add`: `key = CanonicalMIMEHeaderKey(key); h[key] = append(h[key], value)`. -/
def Header.Add (h : Header) (key value : List Char) : Header :=
  let k := CanonicalMIMEHeaderKey key
  ⟨storeEntry k (h.index k ++ [value]) h.entries⟩

/-- Go `Header.Set`: `h[CanonicalMIMEHeaderKey(key)] = []string{value}`. -/
def Header.Set (h : Header) (key value : List Char) : Header :=
  ⟨storeEntry (CanonicalMIMEHeaderKey key) [value] h.entries⟩

/-- Go `copyHeader(dst, src)`; the updated `dst` is returned. -/
def copyHeader (dst src : Header) : Header :=
  src.entries.foldl (fun d e => e.2.foldl (fun d2 v => d2.Add e.1 v) d) dst

/-! ## Requests, connections and the response writer -/

/-- The fields of `http.Request` read by the handlers. -/
structure Request where
  Method : List Char
  RequestURI : List Char
  Host : List Char
deriving DecidableEq, Repr

/-- The fields of `http.Response` read by `handleHTTP`. -/
structure Response where
  StatusCode : Nat
  Header : Header
  Body : List Char
deriving DecidableEq, Repr

/-- A `net.Conn` value: the nil interface or a connection. -/
inductive Conn where
  | nil
  | tcp (id : Nat)
deriving DecidableEq, Repr

/-- The calls a handler makes, in program order. -/
inductive Event where
  | logPrintf (msg : List Char)
  | writeHeader (code : Nat)
  | write (data : List Char)
  | dialTimeout (network address : List Char) (seconds : Nat)
  | hijack
  | goTransfer (destination source : Conn)
  | roundTrip (req : Request)
  | bodyClose
deriving DecidableEq, Repr

/-- An outbound action: a dial, taking over the client connection, starting a relay, or a
round trip to the origin. -/
def Event.outbound : Event → Bool
  | .dialTimeout _ _ _ => true
  | .hijack => true
  | .goTransfer _ _ => true
  | .roundTrip _ => true
  | _ => false

/-- What the outside world answers to a handler. -/
structure Env where
  dial : List Char → Except (List Char) Conn
  roundTrip : Request → Except (List Char) Response

/-- The `http.ResponseWriter` of one request, as `net/http` serves it, together with the
record of the calls made.  `status` and `sentHeader` are the status line of the response
the client receives and the handler's header map as sent with it: they are fixed by the
first accepted `WriteHeader` (or by the first `Write`, with 200) and a later `WriteHeader`
changes nothing.  The fields the server adds on its own (such as `Date`) are not recorded.  `interim` lists
the informational (1xx) status lines sent before it.  `body` collects the data handed to
`Write`.  `panicked` is set when `WriteHeader` panics on a status code outside 100..999:
the handler stops there, only its deferred calls still run, and nothing is sent.
`hijacker` is `none` when the writer is not an `http.Hijacker`, and otherwise holds the
connection and error that `Hijack` returns. -/
structure ResponseWriter where
  header : Header
  status : Option Nat
  sentHeader : Header
  interim : List Nat
  body : List Char
  panicked : Bool
  hijacker : Option (Conn × Option (List Char))
  trace : List Event

/-- The writer handed to a handler for a new request. -/
def ResponseWriter.fresh (hijacker : Option (Conn × Option (List Char))) : ResponseWriter :=
  ⟨⟨[]⟩, none, ⟨[]⟩, [], [], false, hijacker, []⟩

/-- Append a call to the record; a statement after a panic is not executed. -/
def ResponseWriter.record (w : ResponseWriter) (e : Event) : ResponseWriter :=
  if w.panicked then w else { w with trace := w.trace ++ [e] }

/-- Append a deferred call to the record: it runs when the handler returns, also after a
panic. -/
def ResponseWriter.deferred (w : ResponseWriter) (e : Event) : ResponseWriter :=
  { w with trace := w.trace ++ [e] }

/-- Fix the status line and header fields of the response, unless they already are. -/
def ResponseWriter.commit (w : ResponseWriter) (code : Nat) : ResponseWriter :=
  match w.status with
  | some _ => w
  | none => { w with status := some code, sentHeader := w.header }

/-- Go `w.WriteHeader(code)` of `net/http`: superfluous once the header is written;
otherwise a panic (`checkWriteHeaderCode`) for a code outside 100..999, an informational
response for a 1xx code other than 101, and else the status line of the response. -/
def ResponseWriter.WriteHeader (w : ResponseWriter) (code : Nat) : ResponseWriter :=
  if w.panicked then w
  else
    let w1 := w.record (.writeHeader code)
    match w1.status with
    | some _ => w1
    | none =>
        if code < 100 ∨ 999 < code then { w1 with panicked := true }
        else if code ≤ 199 ∧ code ≠ 101 then { w1 with interim := w1.interim ++ [code] }
        else w1.commit code

/-- Go `w.Write(data)`: writes the header with status 200 first when none was written. -/
def ResponseWriter.Write (w : ResponseWriter) (data : List Char) : ResponseWriter :=
  if w.panicked then w
  else
    let w1 := (w.record (.write data)).commit 200
    { w1 with body := w1.body ++ data }

/-- Go `http.Error(w, error, code)`: two header fields are set, then `WriteHeader(code)` and
the message followed by a line feed are written. -/
def httpError (w : ResponseWriter) (error : List Char) (code : Nat) : ResponseWriter :=
  if w.panicked then w
  else
    let w1 := { w with header := w.header.Set "Content-Type".toList "text/plain; charset=utf-8".toList }
    let w2 := { w1 with header := w1.header.Set "X-Content-Type-Options".toList "nosniff".toList }
    (w2.WriteHeader code).Write (error ++ "\n".toList)

/-- The body written on rejection. -/
def rejectionBody : List Char := "<h1>此链接不在代理白名单之内</h1>".toList

/-! ## The handlers -/

/-- Go `handleTunneling`. -/
def handleTunneling (matchString : Matcher) (Config : AppConfig) (env : Env) (req : Request)
    (w : ResponseWriter) : ResponseWriter :=
  let w := w.record (.logPrintf ("tunneling proxy ".toList ++ req.RequestURI))
  if !checkUrl matchString Config req.RequestURI then
    (w.WriteHeader 403).Write rejectionBody
  else
    let w := w.record (.dialTimeout "tcp".toList req.Host 10)
    match env.dial req.Host with
    | .error err => httpError w err 503
    | .ok dest_conn =>
        let w := w.WriteHeader 200
        match w.hijacker with
        | none => httpError w "Hijacking not supported".toList 500
        | some (client_conn, err) =>
            let w := w.record .hijack
            let w :=
              match err with
              | some e => httpError w e 503
              | none => w
            let w := w.record (.goTransfer dest_conn client_conn)
            w.record (.goTransfer client_conn dest_conn)

/-- Go `handleHTTP`. -/
def handleHTTP (matchString : Matcher) (Config : AppConfig) (env : Env) (req : Request)
    (w : ResponseWriter) : ResponseWriter :=
  let w := w.record (.logPrintf ("http proxy ".toList ++ req.RequestURI))
  if !checkUrl matchString Config req.RequestURI then
    (w.WriteHeader 403).Write rejectionBody
  else
    let w := w.record (.roundTrip req)
    match env.roundTrip req with
    | .error err => httpError w err 503
    | .ok resp =>
        let w := { w with header := copyHeader w.header resp.Header }
        let w := w.WriteHeader resp.StatusCode
        let w := w.Write resp.Body
        w.deferred .bodyClose

/-- The handler function installed by `main`. -/
def serveHTTP (matchString : Matcher) (Config : AppConfig) (env : Env) (req : Request)
    (w : ResponseWriter) : ResponseWriter :=
  if req.Method = "CONNECT".toList then handleTunneling matchString Config env req w
  else handleHTTP matchString Config env req w

/-- How far `main` gets: a fatal log line, or the call of `server.ListenAndServe` or
`server.ListenAndServeTLS`, reached with the configuration.  Whether the listener can then
be opened is not part of the record. -/
inductive Startup where
  | fatal (msg : List Char)
  | listenAndServe (Config : AppConfig)
  | listenAndServeTLS (Config : AppConfig)
deriving DecidableEq, Repr

/-- Go `main`, from the result of `yaml.Unmarshal` on. -/
def main (unmarshal : Except (List Char) AppConfig) : Startup :=
  match unmarshal with
  | .error err => .fatal ("Config file read error: ".toList ++ err)
  | .ok Config =>
      if Config.Proto ≠ "http".toList ∧ Config.Proto ≠ "https".toList then
        .fatal "Protocol must be either http or https".toList
      else
        let Config := { Config with Whitelist := normalizeWhitelist Config.Whitelist }
        if Config.Proto = "http".toList then .listenAndServe Config
        else .listenAndServeTLS Config

/-- The characters with a special meaning in a pattern (those `regexp.QuoteMeta` escapes). -/
def isMetaChar (c : Char) : Bool := "\\.+*?()|[]\x7b\x7d^$".toList.contains c

/-! ## Sample inputs -/

/-- A configuration as `main` leaves it, from the whitelist `["example.com"]`. -/
def sampleConfig : AppConfig :=
  ⟨"http".toList, 8080, [], [], normalizeWhitelist ["example.com".toList]⟩

/-- A world where every dial succeeds and the origin answers 200. -/
def sampleEnv : Env :=
  ⟨fun _ => .ok (.tcp 1), fun _ => .ok ⟨200, ⟨[("Content-Type".toList, ["text/html".toList])]⟩, "ok".toList⟩⟩

/-- A CONNECT request for `example.com:443`. -/
def sampleConnect : Request :=
  ⟨"CONNECT".toList, "example.com:443".toList, "example.com:443".toList⟩

/-- A proxied GET request for `http://example.com/`. -/
def sampleGet : Request :=
  ⟨"GET".toList, "http://example.com/".toList, "example.com".toList⟩

/-- A configuration file content whose only whitelist pattern is `(`. -/
def unbalancedConfig : AppConfig :=
  ⟨"http".toList, 8080, [], [], ["(".toList]⟩

/-- A configuration as `main` leaves it, from the whitelist `[p]`. -/
def singlePatternConfig (p : List Char) : AppConfig :=
  ⟨"http".toList, 8080, [], [], normalizeWhitelist [p]⟩

theorem lastIndexFrom_colon_absent (s : List Char) (i : Nat) (acc : Int) (hs : ':' ∉ s) :
    strings.lastIndexFrom [':'] s i acc = acc := by
  induction s generalizing i acc with
  | nil => simp [strings.lastIndexFrom, List.isPrefixOf]
  | cons c t ih =>
      have hc : ¬ (':' = c) := fun h => hs (List.mem_cons.mpr (Or.inl h))
      have ht : ':' ∉ t := fun h => hs (List.mem_cons.mpr (Or.inr h))
      simp [strings.lastIndexFrom, List.isPrefixOf, hc, ih _ _ ht]

theorem lastIndexFrom_colon_last (h p : List Char) (i : Nat) (acc : Int) (hp : ':' ∉ p) :
    strings.lastIndexFrom [':'] (h ++ ':' :: p) i acc = ((i + h.length : Nat) : Int) := by
  induction h generalizing i acc with
  | nil =>
      simp [strings.lastIndexFrom, List.isPrefixOf, lastIndexFrom_colon_absent p _ _ hp]
  | cons c t ih =>
      rw [List.cons_append, strings.lastIndexFrom, ih, List.length_cons]
      congr 1
      omega

theorem stripPort_of_no_colon (s : List Char) (hs : ':' ∉ s) : stripPort s = s := by
  have h : strings.LastIndex s [':'] = -1 := lastIndexFrom_colon_absent s 0 (-1) hs
  simp [stripPort, h]

theorem stripPort_host_port (h p : List Char) (hp : ':' ∉ p) :
    stripPort (h ++ ':' :: p) = h := by
  have e : strings.LastIndex (h ++ ':' :: p) [':'] = ((0 + h.length : Nat) : Int) :=
    lastIndexFrom_colon_last h p 0 (-1) hp
  have ne : ((0 + h.length : Nat) : Int) ≠ -1 := by omega
  show (if strings.LastIndex (h ++ ':' :: p) [':'] ≠ -1 then
      sliceTo (h ++ ':' :: p) (strings.LastIndex (h ++ ':' :: p) [':']) else h ++ ':' :: p) = h
  rw [e, if_pos ne]
  simp [sliceTo]

theorem checkRules_eq_true_iff (matchString : Matcher) (url : List Char) (wl : List (List Char)) :
    checkRules matchString url wl = true ↔ ∃ v ∈ wl, (matchString v url).1 = true := by
  induction wl with
  | nil => simp [checkRules]
  | cons v rest ih =>
      by_cases hv : (matchString v url).1 = true
      · simp [checkRules, hv]
      · simp [checkRules, hv, ih]

/-- C3: for every whitelist, a host `h` and a port string `p` without colon give
`checkUrl (h ++ ":" ++ p) = checkUrl h`: the part after the last colon is cut off and plays
no role in the decision. -/
theorem checkUrl_port_irrelevant (matchString : Matcher) (Config : AppConfig)
    (h p : List Char) (hh : ':' ∉ h) (hp : ':' ∉ p) :
    checkUrl matchString Config (h ++ ":".toList ++ p) = checkUrl matchString Config h := by
  have e : h ++ ":".toList ++ p = h ++ ':' :: p := by simp
  rw [checkUrl, checkUrl, e, stripPort_host_port h p hp, stripPort_of_no_colon h hh]

/-- The host `example.com` with port `443`. -/
theorem checkUrl_port_irrelevant_witness :
    ':' ∉ "example.com".toList ∧ ':' ∉ "443".toList ∧
    checkUrl regexp.MatchString sampleConfig ("example.com".toList ++ ":".toList ++ "443".toList)
      = checkUrl regexp.MatchString sampleConfig "example.com".toList :=
  ⟨by decide, by decide,
    checkUrl_port_irrelevant regexp.MatchString sampleConfig "example.com".toList "443".toList
      (by decide) (by decide)⟩

theorem exists_last_colon (url : List Char) (h : ':' ∈ url) :
    ∃ host port, url = host ++ ':' :: port ∧ ':' ∉ port := by
  induction url with
  | nil => cases h
  | cons c t ih =>
      by_cases ht : ':' ∈ t
      · obtain ⟨host, port, e, hp⟩ := ih ht
        exact ⟨c :: host, port, by rw [e]; rfl, hp⟩
      · rcases List.mem_cons.mp h with hc | hc
        · exact ⟨[], t, by rw [hc]; rfl, ht⟩
        · exact absurd hc ht

/-- C8: `checkUrl url` is true exactly when some rule of the whitelist matches the
port-stripped target, that is `url` itself when it holds no colon and otherwise the part of
`url` before its last colon; with an empty whitelist `checkUrl` is false for every target. -/
theorem checkUrl_iff_some_rule_matches (matchString : Matcher) (Config : AppConfig)
    (url : List Char) :
    (checkUrl matchString Config url = true ↔
      ∃ target,
        ((':' ∉ url ∧ target = url) ∨ ∃ port, ':' ∉ port ∧ url = target ++ ":".toList ++ port) ∧
        ∃ v ∈ Config.Whitelist, (matchString v target).1 = true) ∧
    checkUrl matchString { Config with Whitelist := [] } url = false := by
  refine ⟨?_, rfl⟩
  have hrules := checkRules_eq_true_iff matchString (stripPort url) Config.Whitelist
  constructor
  · intro hc
    refine ⟨stripPort url, ?_, hrules.mp hc⟩
    by_cases hcol : ':' ∈ url
    · obtain ⟨host, port, e, hp⟩ := exists_last_colon url hcol
      right
      refine ⟨port, hp, ?_⟩
      rw [e, stripPort_host_port host port hp]
      simp
    · exact Or.inl ⟨hcol, stripPort_of_no_colon url hcol⟩
  · rintro ⟨target, htarget, hv⟩
    have e : stripPort url = target := by
      rcases htarget with ⟨hcol, ht⟩ | ⟨port, hp, hu⟩
      · rw [ht]
        exact stripPort_of_no_colon url hcol
      · have hu2 : url = target ++ ':' :: port := by rw [hu]; simp
        rw [hu2]
        exact stripPort_host_port target port hp
    exact hrules.mpr (e ▸ hv)

/-- C5: when the request target fails `checkUrl`, either handler answers 403 with the fixed
rejection body and makes no other call than the log line: no dial, no hijack, no relay and
no round trip. -/
theorem rejected_request_no_outbound (matchString : Matcher) (Config : AppConfig) (env : Env)
    (req : Request) (hijacker : Option (Conn × Option (List Char)))
    (hfail : checkUrl matchString Config req.RequestURI = false) :
    ((handleTunneling matchString Config env req (.fresh hijacker)).status = some 403 ∧
      (handleTunneling matchString Config env req (.fresh hijacker)).body = rejectionBody ∧
      (handleTunneling matchString Config env req (.fresh hijacker)).trace =
        [.logPrintf ("tunneling proxy ".toList ++ req.RequestURI),
          .writeHeader 403, .write rejectionBody]) ∧
    ((handleHTTP matchString Config env req (.fresh hijacker)).status = some 403 ∧
      (handleHTTP matchString Config env req (.fresh hijacker)).body = rejectionBody ∧
      (handleHTTP matchString Config env req (.fresh hijacker)).trace =
        [.logPrintf ("http proxy ".toList ++ req.RequestURI),
          .writeHeader 403, .write rejectionBody]) ∧
    ((serveHTTP matchString Config env req (.fresh hijacker)).status = some 403 ∧
      (serveHTTP matchString Config env req (.fresh hijacker)).body = rejectionBody ∧
      ∀ e ∈ (serveHTTP matchString Config env req (.fresh hijacker)).trace,
        e.outbound = false) := by
  have ht : (handleTunneling matchString Config env req (.fresh hijacker)).status = some 403 ∧
      (handleTunneling matchString Config env req (.fresh hijacker)).body = rejectionBody ∧
      (handleTunneling matchString Config env req (.fresh hijacker)).trace =
        [.logPrintf ("tunneling proxy ".toList ++ req.RequestURI),
          .writeHeader 403, .write rejectionBody] := by
    simp [handleTunneling, hfail, ResponseWriter.fresh, ResponseWriter.record,
      ResponseWriter.WriteHeader, ResponseWriter.Write, ResponseWriter.commit]
  have hg : (handleHTTP matchString Config env req (.fresh hijacker)).status = some 403 ∧
      (handleHTTP matchString Config env req (.fresh hijacker)).body = rejectionBody ∧
      (handleHTTP matchString Config env req (.fresh hijacker)).trace =
        [.logPrintf ("http proxy ".toList ++ req.RequestURI),
          .writeHeader 403, .write rejectionBody] := by
    simp [handleHTTP, hfail, ResponseWriter.fresh, ResponseWriter.record,
      ResponseWriter.WriteHeader, ResponseWriter.Write, ResponseWriter.commit]
  refine ⟨ht, hg, ?_⟩
  by_cases hm : req.Method = "CONNECT".toList
  · have hs : serveHTTP matchString Config env req (.fresh hijacker) =
        handleTunneling matchString Config env req (.fresh hijacker) := by
      simp only [serveHTTP, if_pos hm]
    rw [hs]
    refine ⟨ht.1, ht.2.1, ?_⟩
    rw [ht.2.2]
    intro e he
    simp at he
    rcases he with rfl | rfl | rfl <;> rfl
  · have hs : serveHTTP matchString Config env req (.fresh hijacker) =
        handleHTTP matchString Config env req (.fresh hijacker) := by
      simp only [serveHTTP, if_neg hm]
    rw [hs]
    refine ⟨hg.1, hg.2.1, ?_⟩
    rw [hg.2.2]
    intro e he
    simp at he
    rcases he with rfl | rfl | rfl <;> rfl

/-- A CONNECT request for `evil.org:443`, which is not on the whitelist. -/
theorem rejected_request_no_outbound_witness :
    checkUrl regexp.MatchString sampleConfig ("evil.org:443".toList) = false ∧
    (handleTunneling regexp.MatchString sampleConfig sampleEnv
      ⟨"CONNECT".toList, "evil.org:443".toList, "evil.org:443".toList⟩ (.fresh none)).status
      = some 403 :=
  ⟨by decide,
    (rejected_request_no_outbound regexp.MatchString sampleConfig sampleEnv
      ⟨"CONNECT".toList, "evil.org:443".toList, "evil.org:443".toList⟩ none (by decide)).1.1⟩

/-- C10: when the target passes the whitelist, the dial succeeds and `Hijack` fails with an
error, `handleTunneling` writes the error response and still starts both relay directions
with the connection value that the failed `Hijack` returned. -/
theorem hijack_error_still_relays (matchString : Matcher) (Config : AppConfig) (env : Env)
    (req : Request) (dest_conn client_conn : Conn) (err : List Char)
    (hpass : checkUrl matchString Config req.RequestURI = true)
    (hdial : env.dial req.Host = .ok dest_conn) :
    (handleTunneling matchString Config env req (.fresh (some (client_conn, some err)))).trace =
      [.logPrintf ("tunneling proxy ".toList ++ req.RequestURI),
        .dialTimeout "tcp".toList req.Host 10,
        .writeHeader 200,
        .hijack,
        .writeHeader 503,
        .write (err ++ "\n".toList),
        .goTransfer dest_conn client_conn,
        .goTransfer client_conn dest_conn] := by
  simp [handleTunneling, hpass, hdial, httpError, ResponseWriter.fresh, ResponseWriter.record,
    ResponseWriter.WriteHeader, ResponseWriter.Write, ResponseWriter.commit]

/-- A CONNECT request for `example.com:443` whose `Hijack` returns a nil connection and an
error. -/
theorem hijack_error_still_relays_witness :
    checkUrl regexp.MatchString sampleConfig sampleConnect.RequestURI = true ∧
    sampleEnv.dial sampleConnect.Host = .ok (.tcp 1) ∧
    (handleTunneling regexp.MatchString sampleConfig sampleEnv sampleConnect
        (.fresh (some (.nil, some "hijacked".toList)))).trace =
      [.logPrintf ("tunneling proxy ".toList ++ sampleConnect.RequestURI),
        .dialTimeout "tcp".toList sampleConnect.Host 10,
        .writeHeader 200,
        .hijack,
        .writeHeader 503,
        .write ("hijacked".toList ++ "\n".toList),
        .goTransfer (.tcp 1) .nil,
        .goTransfer .nil (.tcp 1)] :=
  ⟨by decide, rfl,
    hijack_error_still_relays regexp.MatchString sampleConfig sampleEnv sampleConnect
      (.tcp 1) .nil "hijacked".toList (by decide) rfl⟩

/-- C6: a CONNECT request for the whitelisted `example.com:443` whose dial succeeds, served
through a writer that is not a `Hijacker`: the status the client receives is 200, written
before the capability test; the later `WriteHeader(500)` of `http.Error` comes too late.
No relay is started. -/
theorem not_hijacker_status_is_200 :
    checkUrl regexp.MatchString sampleConfig sampleConnect.RequestURI = true ∧
    sampleEnv.dial sampleConnect.Host = .ok (.tcp 1) ∧
    (handleTunneling regexp.MatchString sampleConfig sampleEnv sampleConnect
      (.fresh none)).status = some 200 ∧
    (handleTunneling regexp.MatchString sampleConfig sampleEnv sampleConnect
      (.fresh none)).trace =
      [.logPrintf "tunneling proxy example.com:443".toList,
        .dialTimeout "tcp".toList "example.com:443".toList 10,
        .writeHeader 200,
        .writeHeader 500,
        .write "Hijacking not supported\n".toList] :=
  ⟨by decide, rfl, by decide, by decide⟩

/-- C4: with the whitelist `["example.com"]` as normalised at startup the host
`example.com` is allowed, yet the proxied requests `GET http://example.com/` and
`GET http://example.com:8080/a` are answered 403 by `handleHTTP` without a round trip:
`checkUrl` receives the whole request URI and cuts it at its last colon, leaving `http` and
`http://example.com`. -/
theorem handleHTTP_rejects_whitelisted_host :
    checkUrl regexp.MatchString sampleConfig "example.com".toList = true ∧
    stripPort sampleGet.RequestURI = "http".toList ∧
    (handleHTTP regexp.MatchString sampleConfig sampleEnv sampleGet (.fresh none)).status
      = some 403 ∧
    (handleHTTP regexp.MatchString sampleConfig sampleEnv sampleGet (.fresh none)).trace
      = [.logPrintf "http proxy http://example.com/".toList, .writeHeader 403,
          .write rejectionBody] ∧
    stripPort "http://example.com:8080/a".toList = "http://example.com".toList ∧
    (handleHTTP regexp.MatchString sampleConfig sampleEnv
      ⟨"GET".toList, "http://example.com:8080/a".toList, "example.com:8080".toList⟩
      (.fresh none)).status = some 403 := by
  decide

theorem checkRules_skip (matchString : Matcher) (url v : List Char) (pre post : List (List Char))
    (hv : (matchString v url).1 = false) :
    checkRules matchString url (pre ++ v :: post) = checkRules matchString url (pre ++ post) := by
  induction pre with
  | nil => simp [checkRules, hv]
  | cons a rest ih => simp [checkRules, ih]

theorem MatchString_of_parse_error (v s : List Char) (e : ErrorCode)
    (hv : regexp.parse v = .error e) :
    regexp.MatchString v s = (false, some ("error parsing regexp: ".toList ++ e.String)) := by
  simp [regexp.MatchString, hv]

/-- C9, as stated, fails: the pattern `(` is normalised to `^($`, which does not compile
(missing closing parenthesis), and `main` raises no fatal error: it goes on to the call of
`server.ListenAndServe`.  The compile error then shows up at each request, inside
`regexp.MatchString`. -/
theorem uncompilable_pattern_not_fatal :
    "(".toList ∈ unbalancedConfig.Whitelist ∧
    regexp.parse (normalizePattern "(".toList) = .error .missingParen ∧
    main (.ok unbalancedConfig) =
      .listenAndServe ⟨"http".toList, 8080, [], [], ["^($".toList]⟩ ∧
    (regexp.MatchString "^($".toList "example.com".toList).1 = false ∧
    (regexp.MatchString "^($".toList "example.com".toList).2 ≠ none :=
  ⟨by decide, rfl, by decide, by decide, by decide⟩

/-- C9, amended: `main` compiles no pattern and raises no fatal error for the whitelist.
With protocol `http` or `https` it reaches the call of `server.ListenAndServe` or
`server.ListenAndServeTLS` with the normalised whitelist (each pattern `v` turned into
`^`, `v` with every `*` replaced by `.*`, and `$`), whatever the patterns are.  A
pattern `v` that does not compile, that is one for which `regexp.MatchString(v, s)` returns
`(false, err)` for every `s`, is evaluated at each request inside `checkUrl`: the error is
dropped, the pattern counts as not matching and the decision is the one of the other
rules.  This holds for every function standing for `regexp.MatchString`. -/
theorem startup_compiles_no_pattern (Config : AppConfig)
    (hproto : Config.Proto = "http".toList ∨ Config.Proto = "https".toList) :
    main (.ok Config) =
      (if Config.Proto = "http".toList then
        .listenAndServe { Config with Whitelist := Config.Whitelist.map (fun v =>
          "^".toList ++ strings.ReplaceAll v "*".toList ".*".toList ++ "$".toList) }
      else
        .listenAndServeTLS { Config with Whitelist := Config.Whitelist.map (fun v =>
          "^".toList ++ strings.ReplaceAll v "*".toList ".*".toList ++ "$".toList) }) ∧
    ∀ (matchString : Matcher) (pre post : List (List Char)) (v url err : List Char),
      (∀ s, matchString v s = (false, some err)) →
      checkUrl matchString { Config with Whitelist := pre ++ v :: post } url =
        checkUrl matchString { Config with Whitelist := pre ++ post } url := by
  constructor
  · have hnot : ¬ (Config.Proto ≠ "http".toList ∧ Config.Proto ≠ "https".toList) := by
      rintro ⟨h1, h2⟩
      rcases hproto with h | h
      · exact h1 h
      · exact h2 h
    simp only [main]
    rw [if_neg hnot]
    rfl
  · intro matchString pre post v url err hv
    exact checkRules_skip matchString (stripPort url) v pre post (by rw [hv])

/-- The whitelist `(`, and at request time the rules `^($` and `^x$` for the target
`x:80`, with the model of `regexp.MatchString`. -/
theorem startup_compiles_no_pattern_witness :
    (unbalancedConfig.Proto = "http".toList ∨ unbalancedConfig.Proto = "https".toList) ∧
    regexp.parse "^($".toList = .error .missingParen ∧
    (∀ s, regexp.MatchString "^($".toList s =
      (false, some ("error parsing regexp: ".toList ++ ErrorCode.missingParen.String))) ∧
    checkUrl regexp.MatchString
        { unbalancedConfig with Whitelist := [] ++ "^($".toList :: ["^x$".toList] } "x:80".toList =
      checkUrl regexp.MatchString
        { unbalancedConfig with Whitelist := [] ++ ["^x$".toList] } "x:80".toList :=
  ⟨Or.inl rfl, rfl, fun s => MatchString_of_parse_error "^($".toList s .missingParen rfl,
    (startup_compiles_no_pattern unbalancedConfig (Or.inl rfl)).2 regexp.MatchString []
      ["^x$".toList] "^($".toList "x:80".toList
      ("error parsing regexp: ".toList ++ ErrorCode.missingParen.String)
      (fun s => MatchString_of_parse_error "^($".toList s .missingParen rfl)⟩

/-! ## Header copying -/

theorem flatMap_singleton_id (l : List (List Char)) : l.flatMap (fun s => [s]) = l := by
  induction l with
  | nil => rfl
  | cons a l ih => simp [List.flatMap_cons, ih]

theorem after_concatOf_cons (text : List Char) (r : Regex) (rs : List Regex) (s : List Char) :
    (concatOf (r :: rs)).after text s = (r.after text s).flatMap ((concatOf rs).after text) := by
  cases rs with
  | nil =>
      have h : Regex.after text (concatOf []) = fun s => [s] := by
        funext s
        simp [concatOf, Regex.after]
      rw [h, flatMap_singleton_id]
      simp [concatOf]
  | cons r2 rs => simp [concatOf, Regex.after]

theorem mem_after_concatOf_cons (text : List Char) (r : Regex) (rs : List Regex)
    (s t : List Char) :
    t ∈ (concatOf (r :: rs)).after text s ↔
      ∃ m, m ∈ r.after text s ∧ t ∈ (concatOf rs).after text m := by
  rw [after_concatOf_cons, List.mem_flatMap]

theorem mem_after_literal (text : List Char) (c : Char) (s t : List Char) :
    t ∈ (Regex.literal c).after text s ↔ s = c :: t := by
  cases s with
  | nil => simp [Regex.after]
  | cons d s2 =>
      by_cases h : d = c
      · simp [Regex.after, h, eq_comm]
      · simp [Regex.after, h]

theorem mem_after_any (text : List Char) (s t : List Char) :
    t ∈ Regex.anyCharNotNL.after text s ↔ ∃ c, c ≠ '\n' ∧ s = c :: t := by
  cases s with
  | nil => simp [Regex.after]
  | cons d s2 =>
      by_cases h : d = '\n'
      · subst h
        simp only [Regex.after, if_true]
        constructor
        · intro hm
          cases hm
        · rintro ⟨c, hc, e⟩
          exact absurd (List.cons.inj e).1.symm hc
      · simp only [Regex.after, if_neg h, List.mem_singleton]
        constructor
        · intro e
          exact ⟨d, h, by rw [e]⟩
        · rintro ⟨c, _, e⟩
          exact ((List.cons.inj e).2).symm

theorem mem_after_endText (text : List Char) (s t : List Char) :
    t ∈ Regex.endText.after text s ↔ s = [] ∧ t = [] := by
  cases s with
  | nil => simp [Regex.after, eq_comm]
  | cons d s2 => simp [Regex.after]

theorem mem_starLoop_any (text : List Char) (n : Nat) (s t : List Char) (hn : s.length ≤ n) :
    t ∈ starLoop (Regex.anyCharNotNL.after text) n s ↔ ∃ u, s = u ++ t ∧ '\n' ∉ u := by
  induction n generalizing s with
  | zero =>
      have hs : s = [] := List.length_eq_zero.mp (Nat.le_zero.mp hn)
      subst hs
      simp only [starLoop, List.mem_singleton]
      constructor
      · intro h
        exact ⟨[], by rw [h]; rfl, List.not_mem_nil _⟩
      · rintro ⟨u, hu, _⟩
        exact (List.append_eq_nil.mp hu.symm).2
  | succ n ih =>
      simp only [starLoop, List.mem_cons, List.mem_flatMap, List.mem_filter, decide_eq_true_eq,
        mem_after_any]
      constructor
      · rintro (h | ⟨m, ⟨⟨c, hc, hs⟩, _⟩, ht⟩)
        · exact ⟨[], by rw [h]; rfl, List.not_mem_nil _⟩
        · have hm : m.length ≤ n := by
            rw [hs] at hn
            simpa using hn
          obtain ⟨u, hu, hnl⟩ := (ih m hm).mp ht
          refine ⟨c :: u, by rw [hs, hu]; rfl, ?_⟩
          intro hmem
          rcases List.mem_cons.mp hmem with h1 | h1
          · exact hc h1.symm
          · exact hnl h1
      · rintro ⟨u, hu, hnl⟩
        cases u with
        | nil => exact Or.inl (by simpa using hu.symm)
        | cons a u2 =>
            have ha : a ≠ '\n' := fun e => hnl (List.mem_cons.mpr (Or.inl e.symm))
            have hm : (u2 ++ t).length ≤ n := by
              rw [hu] at hn
              simpa using hn
            refine Or.inr ⟨u2 ++ t, ⟨⟨a, ha, by rw [hu]; rfl⟩, ?_⟩, ?_⟩
            · rw [hu]
              simp
            · exact (ih (u2 ++ t) hm).mpr ⟨u2, rfl, fun h => hnl (List.mem_cons_of_mem _ h)⟩

theorem mem_after_star_any (text : List Char) (s t : List Char) :
    t ∈ (Regex.star .anyCharNotNL).after text s ↔ ∃ u, s = u ++ t ∧ '\n' ∉ u := by
  simp only [Regex.after]
  exact mem_starLoop_any text s.length s t (Nat.le_refl _)

theorem matchString_beginText (rs : List Regex) (s : List Char) :
    (concatOf (.beginText :: rs)).matchString s = true ↔
      ∃ t, t ∈ (concatOf rs).after s s := by
  simp only [Regex.matchString, List.any_eq_true, List.mem_tails, after_concatOf_cons]
  constructor
  · rintro ⟨t, hsuf, ht⟩
    by_cases hl : t.length = s.length
    · have e : t = s := hsuf.eq_of_length hl
      subst e
      simp only [Regex.after, if_true, List.flatMap_cons, List.flatMap_nil,
        List.append_nil] at ht
      cases hr : (concatOf rs).after t t with
      | nil => simp [hr] at ht
      | cons a l => exact ⟨a, by simp⟩
    · simp [Regex.after, hl] at ht
  · rintro ⟨t, ht⟩
    refine ⟨s, List.suffix_refl s, ?_⟩
    simp only [Regex.after, if_true, List.flatMap_cons, List.flatMap_nil, List.append_nil]
    cases hr : (concatOf rs).after s s with
    | nil => simp [hr] at ht
    | cons a l => simp

/-! ## Patterns without metacharacters -/

theorem replaceFrom_absent (c : Char) (new p : List Char) (hp : c ∉ p) :
    strings.replaceFrom [c] new 0 p = p := by
  induction p with
  | nil => rfl
  | cons d t ih =>
      have hd : ¬ c = d := fun h => hp (List.mem_cons.mpr (Or.inl h))
      have ht : c ∉ t := fun h => hp (List.mem_cons.mpr (Or.inr h))
      simp [strings.replaceFrom, List.isPrefixOf, hd, ih ht]

theorem normalizePattern_of_no_star (p : List Char) (hp : '*' ∉ p) :
    normalizePattern p = '^' :: (p ++ ['$']) := by
  have h : strings.ReplaceAll p ['*'] ['.', '*'] = p := replaceFrom_absent '*' _ p hp
  show ['^'] ++ strings.ReplaceAll p ['*'] ['.', '*'] ++ ['$'] = _
  rw [h]
  simp

theorem not_meta_ne (c : Char) (hc : isMetaChar c = false) :
    c ≠ '\\' ∧ c ≠ '.' ∧ c ≠ '+' ∧ c ≠ '*' ∧ c ≠ '?' ∧ c ≠ '(' ∧ c ≠ ')' ∧ c ≠ '|' ∧
    c ≠ '[' ∧ c ≠ ']' ∧ c ≠ '{' ∧ c ≠ '}' ∧ c ≠ '^' ∧ c ≠ '$' := by
  have h : ¬ c ∈ ['\\', '.', '+', '*', '?', '(', ')', '|', '[', ']', '{', '}', '^', '$'] := by
    intro hm
    have : isMetaChar c = true := List.elem_eq_true_of_mem hm
    rw [hc] at this
    cases this
  simpa using h

theorem parseLoop_literals (p rest : List Char) (hp : ∀ c ∈ p, isMetaChar c = false)
    (f : Frame) (outer : List Frame) :
    parseLoop (p ++ rest) f outer false false =
      parseLoop rest ⟨f.alts, (p.map Regex.literal).reverse ++ f.cur⟩ outer false false := by
  induction p generalizing f with
  | nil => rfl
  | cons c t ih =>
      have hc := not_meta_ne c (hp c (List.mem_cons_self _ _))
      have ht : ∀ d ∈ t, isMetaChar d = false := fun d hd => hp d (List.mem_cons_of_mem _ hd)
      obtain ⟨h1, h2, h3, h4, h5, h6, h7, h8, h9, _, h11, _, h13, h14⟩ := hc
      simp only [List.cons_append, parseLoop, h1, h2, h3, h4, h5, h6, h7, h8, h9, h11, h13, h14,
        if_false, or_self, Bool.false_eq_true]
      refine (ih ht (f.push (Regex.literal c))).trans ?_
      simp [Frame.push]

theorem parse_normalized_literal (p : List Char) (hp : ∀ c ∈ p, isMetaChar c = false) :
    regexp.parse ('^' :: (p ++ ['$'])) =
      .ok (concatOf (.beginText :: (p.map Regex.literal ++ [.endText]))) := by
  have h0 : regexp.parse ('^' :: (p ++ ['$'])) =
      parseLoop (p ++ ['$']) ⟨[], [.beginText]⟩ [] false false := by
    simp [regexp.parse, parseLoop, Frame.push]
  rw [h0, parseLoop_literals p ['$'] hp]
  simp [parseLoop, Frame.push, Frame.close, Frame.branch, alternateOf]

theorem mem_after_literals (text p s t : List Char) :
    t ∈ (concatOf (p.map Regex.literal ++ [.endText])).after text s ↔ s = p ∧ t = [] := by
  induction p generalizing s with
  | nil =>
      show t ∈ (concatOf [.endText]).after text s ↔ _
      simp only [concatOf, mem_after_endText]
  | cons c p2 ih =>
      rw [List.map_cons, List.cons_append, mem_after_concatOf_cons]
      simp only [mem_after_literal, ih]
      constructor
      · rintro ⟨m, hs, hm, ht⟩
        exact ⟨by rw [hs, hm], ht⟩
      · rintro ⟨hs, ht⟩
        exact ⟨p2, hs, rfl, ht⟩

theorem matchString_literal_pattern (p s : List Char) (hp : ∀ c ∈ p, isMetaChar c = false) :
    (regexp.MatchString (normalizePattern p) s).1 = true ↔ s = p := by
  have hstar : '*' ∉ p := fun h => by
    have := hp '*' h
    revert this
    decide
  rw [normalizePattern_of_no_star p hstar]
  simp only [regexp.MatchString, parse_normalized_literal p hp, matchString_beginText,
    mem_after_literals]
  constructor
  · rintro ⟨_, h, _⟩
    exact h
  · intro h
    exact ⟨[], h, rfl⟩

theorem checkUrl_single_pattern (p h : List Char) (hh : ':' ∉ h) :
    checkUrl regexp.MatchString (singlePatternConfig p) h =
      (regexp.MatchString (normalizePattern p) h).1 := by
  rw [checkUrl, stripPort_of_no_colon h hh]
  show checkRules regexp.MatchString h [normalizePattern p] = _
  cases hm : (regexp.MatchString (normalizePattern p) h).1 <;> simp [checkRules, hm]

/-- C1, as stated, fails: the pattern `a.b` holds no `*`, and the host `axb`, different
from it, is admitted, because the dot keeps its regexp meaning. -/
theorem dot_in_pattern_matches_any_char :
    '*' ∉ "a.b".toList ∧ ':' ∉ "axb".toList ∧
    checkUrl regexp.MatchString (singlePatternConfig "a.b".toList) "axb".toList = true ∧
    "axb".toList ≠ "a.b".toList := by
  decide

/-- C1, amended: for every pattern `p` that holds none of the regexp metacharacters
``\.+*?()|[]{}^$`` and every host `h` without colon, with the whitelist being the single
pattern `p` as normalised at startup, `checkUrl h` is true exactly when `h = p`. -/
theorem checkUrl_literal_pattern (p h : List Char) (hp : ∀ c ∈ p, isMetaChar c = false)
    (hh : ':' ∉ h) :
    checkUrl regexp.MatchString (singlePatternConfig p) h = true ↔ h = p := by
  rw [checkUrl_single_pattern p h hh]
  exact matchString_literal_pattern p h hp

/-- The pattern and host `localhost`. -/
theorem checkUrl_literal_pattern_witness :
    (∀ c ∈ "localhost".toList, isMetaChar c = false) ∧ ':' ∉ "localhost".toList ∧
    (checkUrl regexp.MatchString (singlePatternConfig "localhost".toList) "localhost".toList = true
      ↔ "localhost".toList = "localhost".toList) :=
  ⟨by decide, by decide,
    checkUrl_literal_pattern "localhost".toList "localhost".toList (by decide) (by decide)⟩

/-! ## The pattern `*.example.com` -/

theorem mem_after_literals_then (text p : List Char) (rs : List Regex) (s t : List Char) :
    t ∈ (concatOf (p.map Regex.literal ++ rs)).after text s ↔
      ∃ m, s = p ++ m ∧ t ∈ (concatOf rs).after text m := by
  induction p generalizing s with
  | nil => simp
  | cons c p2 ih =>
      rw [List.map_cons, List.cons_append, mem_after_concatOf_cons]
      simp only [mem_after_literal, ih]
      constructor
      · rintro ⟨m, hs, m2, hm, ht⟩
        exact ⟨m2, by rw [hs, hm]; rfl, ht⟩
      · rintro ⟨m2, hs, ht⟩
        exact ⟨p2 ++ m2, hs, m2, rfl, ht⟩

theorem parse_wildcard_example :
    regexp.parse (normalizePattern "*.example.com".toList) =
      .ok (concatOf (.beginText :: .star .anyCharNotNL :: .anyCharNotNL ::
        ("example".toList.map Regex.literal ++
          (.anyCharNotNL :: ("com".toList.map Regex.literal ++ [.endText]))))) := by
  rfl

theorem matchString_wildcard_example (h : List Char) :
    (regexp.MatchString (normalizePattern "*.example.com".toList) h).1 = true ↔
      ∃ u c1 c2, h = u ++ [c1] ++ "example".toList ++ [c2] ++ "com".toList ∧
        '\n' ∉ u ∧ c1 ≠ '\n' ∧ c2 ≠ '\n' := by
  simp only [regexp.MatchString, parse_wildcard_example, matchString_beginText,
    mem_after_concatOf_cons, mem_after_star_any, mem_after_any, mem_after_literals_then]
  constructor
  · rintro ⟨t, m1, ⟨u, hu, hnl⟩, m2, ⟨c1, hc1, h1⟩, m3, h2, m4, ⟨c2, hc2, h3⟩, m5, h4, m6, h5, _⟩
    have h6 : m5 = [] := ((mem_after_endText h m5 m6).mp h5).1
    refine ⟨u, c1, c2, ?_, hnl, hc1, hc2⟩
    rw [hu, h1, h2, h3, h4, h6]
    simp
  · rintro ⟨u, c1, c2, hh, hnl, hc1, hc2⟩
    refine ⟨[], c1 :: ("example".toList ++ c2 :: "com".toList), ⟨u, ?_, hnl⟩,
      "example".toList ++ c2 :: "com".toList, ⟨c1, hc1, rfl⟩,
      c2 :: "com".toList, rfl, "com".toList, ⟨c2, hc2, rfl⟩, [], by simp, [], ?_, ?_⟩
    · rw [hh]
      simp
    · exact (mem_after_endText h [] []).mpr ⟨rfl, rfl⟩
    · simp [concatOf, Regex.after]

/-- C2, as stated, fails in both directions: `aexample.com` is admitted although it does
not end with `.example.com` after a non-empty prefix (the dot of the pattern matches the
`a`), and a host with a line feed in its prefix is refused although it does end so.  The
bare suffix `.example.com`, whose prefix is empty, is admitted as well. -/
theorem wildcard_example_not_suffix_test :
    ':' ∉ "aexample.com".toList ∧
    checkUrl regexp.MatchString (singlePatternConfig "*.example.com".toList)
      "aexample.com".toList = true ∧
    (¬ ∃ pre, pre ≠ [] ∧ "aexample.com".toList = pre ++ ".example.com".toList) ∧
    ':' ∉ "a\n.example.com".toList ∧
    checkUrl regexp.MatchString (singlePatternConfig "*.example.com".toList)
      "a\n.example.com".toList = false ∧
    (∃ pre, pre ≠ [] ∧ "a\n.example.com".toList = pre ++ ".example.com".toList) ∧
    checkUrl regexp.MatchString (singlePatternConfig "*.example.com".toList)
      ".example.com".toList = true := by
  refine ⟨by decide, by decide, ?_, by decide, by decide, ⟨"a\n".toList, by decide, by decide⟩,
    by decide⟩
  rintro ⟨pre, hne, he⟩
  have hl := congrArg List.length he
  rw [List.length_append] at hl
  have h0 : pre.length = 0 := by
    have h1 : "aexample.com".toList.length = 12 := by decide
    have h2 : ".example.com".toList.length = 12 := by decide
    omega
  exact hne (List.length_eq_zero.mp h0)

/-- C2, amended: with the whitelist being the single pattern `*.example.com` as normalised
at startup (the regexp `^.*.example.com$`), for every host `h` without colon `checkUrl h` is
true exactly when `h` is made of a prefix free of line feeds (possibly empty), one character
other than a line feed, `example`, one character other than a line feed, and `com`.  In
particular `checkUrl "example.com"` is false, and every `h` that ends with `.example.com`
after a prefix free of line feeds is admitted. -/
theorem checkUrl_wildcard_example (h : List Char) (hh : ':' ∉ h) :
    (checkUrl regexp.MatchString (singlePatternConfig "*.example.com".toList) h = true ↔
      ∃ u c1 c2, h = u ++ [c1] ++ "example".toList ++ [c2] ++ "com".toList ∧
        '\n' ∉ u ∧ c1 ≠ '\n' ∧ c2 ≠ '\n') ∧
    checkUrl regexp.MatchString (singlePatternConfig "*.example.com".toList)
      "example.com".toList = false ∧
    (∀ pre, '\n' ∉ pre → h = pre ++ ".example.com".toList →
      checkUrl regexp.MatchString (singlePatternConfig "*.example.com".toList) h = true) := by
  have hiff : checkUrl regexp.MatchString (singlePatternConfig "*.example.com".toList) h = true ↔
      ∃ u c1 c2, h = u ++ [c1] ++ "example".toList ++ [c2] ++ "com".toList ∧
        '\n' ∉ u ∧ c1 ≠ '\n' ∧ c2 ≠ '\n' := by
    rw [checkUrl_single_pattern _ h hh]
    exact matchString_wildcard_example h
  refine ⟨hiff, by decide, ?_⟩
  intro pre hnl he
  rw [hiff]
  refine ⟨pre, '.', '.', ?_, hnl, by decide, by decide⟩
  rw [he]
  simp

/-- The host `www.example.com`. -/
theorem checkUrl_wildcard_example_witness :
    ':' ∉ "www.example.com".toList ∧ '\n' ∉ "www".toList ∧
    "www.example.com".toList = "www".toList ++ ".example.com".toList ∧
    checkUrl regexp.MatchString (singlePatternConfig "*.example.com".toList)
      "www.example.com".toList = true :=
  ⟨by decide, by decide, by decide,
    (checkUrl_wildcard_example "www.example.com".toList (by decide)).2.2 "www".toList
      (by decide) (by decide)⟩

end GoWebProxy
